import Mathlib

/-!
Verification of the bigchess core (src/core): a shallow embedding of
errors.rs, game.rs, state.rs, api.rs and stdio.rs, followed by theorems
about the embedded operations.

The external chess-rules library (shakmaty) is out of scope of the
specification; it is modelled as an abstract `Rules` record providing the
capabilities the core consumes (parse UCI, resolve a move, render SAN,
apply a move, enumerate legal moves, FEN, check and capture tests).
`Rules.Lawful` captures the single round-trip contract the core relies on:
a SAN rendered from a legal move resolves back to that move.

Mutexes and RwLocks are erased: the embedding is sequential, so lock
poisoning (`PoisonedHandle`) never arises and every acquisition succeeds.
-/

set_option maxHeartbeats 1000000

namespace BigChess

/-! ## errors.rs -/

/-- The error taxonomy of `errors.rs` (`enum ErrorType`). -/
inductive ErrorType : Type where
  | Deserialize
  | Parse
  | ChessRules
  | BadHandle
  | StaleHandle
  | PoisonedHandle
  | IOError
deriving DecidableEq, Repr

/-- `struct Error` of errors.rs. The `source` field of the Rust struct holds a
boxed library error used only for debug formatting; it is modelled as an
optional tag string. -/
structure Error : Type where
  error_type : ErrorType
  source : Option String
  id : Option String
deriving DecidableEq, Repr

/-- `Error::new`. -/
def Error.new (t : ErrorType) : Error := ⟨t, none, none⟩

/-- `Error::with_id`. -/
def Error.with_id (e : Error) (id : String) : Error :=
  { e with id := some id }

/-- `Error::is_type`. -/
def Error.is_type (e : Error) (t : ErrorType) : Bool :=
  decide (e.error_type = t)

/-- `Error::is_recoverable`: every error except `PoisonedHandle` is recoverable. -/
def Error.is_recoverable (e : Error) : Bool :=
  !(e.is_type ErrorType.PoisonedHandle)

/-- `human_readable_message` of errors.rs. -/
def human_readable_message (t : ErrorType) : String :=
  match t with
  | ErrorType.Deserialize => "Could not parse JSON from stdin."
  | ErrorType.Parse => "Could not parse given input."
  | ErrorType.ChessRules => "Unexpected illegal chess position. Unchecked chess information should be sent to a function expecting it."
  | ErrorType.BadHandle => "Tried to use an invalid handle to a game or the inner state."
  | ErrorType.StaleHandle => "Tried to use an expired handle to a game."
  | ErrorType.PoisonedHandle => "Unrecoverable error: A thread crashed while holding a lock to the program state."
  | _ => "IO operation failed."

/-- `struct ErrorRepr` of errors.rs: the wire form of an error. -/
structure ErrorRepr : Type where
  error_type : ErrorType
  message : String
  underlying_error : Option String
  game_id : Option String
deriving DecidableEq, Repr

/-- Debug formatting of the optional boxed source (`format!("{:?}", e.source)`). -/
def debug_source : Option String → String
  | none => "None"
  | some s => s

/-- `impl From<Error> for ErrorRepr`. -/
def Error.to_repr (e : Error) : ErrorRepr :=
  { error_type := e.error_type
    message := human_readable_message e.error_type
    underlying_error := some (debug_source e.source)
    game_id := e.id }

/-! ## The chess-rules adapter (shakmaty, external)

`Rules` packages exactly the capabilities game.rs consumes from shakmaty:
`Uci` parsing (`str::parse::<Uci>`), resolving a UCI or SAN against a
position (`Uci::to_move`, `San::to_move`), rendering SAN
(`SanPlus::from_move`), applying a move (`Position::play_unchecked`),
legal-move enumeration (`Position::legals`), square accessors, capture and
check tests, FEN parsing and rendering. -/

structure Rules (Pos Move San Uci Fen : Type) : Type where
  /-- `shakmaty::Chess::default()`, the standard starting position. -/
  start : Pos
  /-- `str::parse::<Uci>`; `none` models `ParseUciError`. -/
  parse_uci : String → Option Uci
  /-- `Uci::to_move`; `none` models `IllegalMoveError`. -/
  uci_to_move : Uci → Pos → Option Move
  /-- `SanPlus::from_move` (total). -/
  san_of : Pos → Move → San
  /-- `San::to_move`; `none` models `SanError`. -/
  san_to_move : San → Pos → Option Move
  /-- `Position::play_unchecked` (total; caller guarantees legality). -/
  apply : Pos → Move → Pos
  /-- `Position::legals`. -/
  legals : Pos → List Move
  /-- `Move::from().unwrap().to_string()`. -/
  move_from : Move → String
  /-- `Move::to().to_string()`. -/
  move_to : Move → String
  /-- `Move::is_capture`. -/
  is_capture : Move → Bool
  /-- `Position::is_check`. -/
  is_check : Pos → Bool
  /-- `shakmaty::fen::fen(pos).to_string()`. -/
  fen_of : Pos → String
  /-- `str::parse::<shakmaty::fen::Fen>`; `none` models `ParseFenError`. -/
  parse_fen : String → Option Fen
  /-- `Fen::position`; `none` models `PositionError`. -/
  fen_position : Fen → Option Pos

/-- The round-trip contract the core relies on: the SAN shakmaty renders for
a legal move resolves back to exactly that move on the same position. -/
structure Rules.Lawful {Pos Move San Uci Fen : Type}
    (R : Rules Pos Move San Uci Fen) : Prop where
  roundtrip : ∀ (p : Pos) (u : Uci) (m : Move),
    R.uci_to_move u p = some m → R.san_to_move (R.san_of p m) p = some m

/-! ## game.rs: data model -/

/-- `enum Annotation {}` of game.rs (reserved, uninhabited). -/
inductive Annotation : Type where

/-- `struct Player {}` of game.rs (reserved). -/
structure Player : Type where
deriving DecidableEq

/-- `struct Lichess {}` of game.rs (reserved). -/
structure Lichess : Type where
deriving DecidableEq

/-- `struct GameInfo` of game.rs. -/
structure GameInfo : Type where
  players : Option Player × Option Player
  game_title : String
  lichess : Option Lichess

/-- `struct GameTree` of game.rs: `san` is `None` exactly on the root
sentinel; `lines.head` is the main line and later entries are sidelines. -/
inductive GameTree (San : Type) : Type where
  | mk (san : Option San) (lines : List (GameTree San))
      ( annotation : Option Annotation) (evaluation : Option Int)

/-- The `san` field of a `GameTree` node. -/
def GameTree.san {San : Type} : GameTree San → Option San
  | GameTree.mk s _ _ _ => s

/-- The `lines` field of a `GameTree` node. -/
def GameTree.lines {San : Type} : GameTree San → List (GameTree San)
  | GameTree.mk _ l _ _ => l

/-- `GameTree::default()`: the root sentinel. -/
def GameTree.root (San : Type) : GameTree San :=
  GameTree.mk none [] none none

/-- `struct Game` of game.rs. -/
structure Game (Pos San : Type) : Type where
  /-- Index of the game in state's inner Vec (vestigial in the string-keyed
  revision; `Default` gives 0 and nothing updates it). -/
  index : Nat
  game_info : GameInfo
  current_line : List San
  initial_position : Pos
  game_tree : GameTree San

/-- `Game::default()` (with the library default starting position). -/
def Game.default_game {Pos Move San Uci Fen : Type}
    (R : Rules Pos Move San Uci Fen) : Game Pos San :=
  { index := 0
    game_info := ⟨(none, none), "", none⟩
    current_line := []
    initial_position := R.start
    game_tree := GameTree.root San }

/-! ## game.rs: tree helpers -/

section TreeOps

variable {Pos Move San Uci Fen : Type} [DecidableEq San]

/-- First child whose `san` equals `some s`, together with its index.
This is the search performed by `iter().find` in `traverse_down` and by
`iter().position` in `find_or_create_branch`. -/
def find_child (s : San) : List (GameTree San) → Option (Nat × GameTree San)
  | [] => none
  | c :: cs =>
    if GameTree.san c = some s then some (0, c)
    else (find_child s cs).map (fun p => (p.1 + 1, p.2))

/-- `traverse_down` of game.rs: walk the tree along a SAN prefix; `none`
models the `ChessRules` error raised when the prefix diverges from the tree. -/
def traverse_down : GameTree San → List San → Option (GameTree San)
  | t, [] => some t
  | t, s :: rest =>
    match find_child s (GameTree.lines t) with
    | none => none
    | some (_, c) => traverse_down c rest

/-- `insert_branch` of game.rs: the fresh child node pushed for a new SAN. -/
def new_branch (s : San) : GameTree San :=
  GameTree.mk (some s) [] none none

/-- Append a fresh child for `s` to a node (the effect of `insert_branch`
on the node's `lines` vector). -/
def push_child (s : San) : GameTree San → GameTree San
  | GameTree.mk s0 lines a e => GameTree.mk s0 (lines ++ [new_branch s]) a e

/-- The functional rendering of the in-place mutation done by
`find_or_create_branch`: walk down `line` (first matching child at each
step, as `traverse_down` does) and push a fresh child carrying `s` at the
node reached. If the path diverges no node is reached and the tree is
returned unchanged (the caller has already checked `traverse_down`). -/
def tree_insert (s : San) : GameTree San → List San → GameTree San
  | t, [] => push_child s t
  | GameTree.mk s0 lines a e, step :: rest =>
    match find_child step lines with
    | none => GameTree.mk s0 lines a e
    | some (i, c) => GameTree.mk s0 (lines.set i (tree_insert s c rest)) a e

end TreeOps

/-! ## game.rs: operations -/

section GameOps

variable {Pos Move San Uci Fen : Type} [DecidableEq San]

/-- `shakmaty_position` of game.rs: replay a SAN line from a starting
position. The Rust code panics (`expect("Tried to compute an invalid
line")`) when a SAN fails to resolve; that branch is modelled as skipping
the move and is unreachable for the legal lines the invariants guarantee. -/
def shakmaty_position (R : Rules Pos Move San Uci Fen) (p : Pos) :
    List San → Pos
  | [] => p
  | s :: rest =>
    match R.san_to_move s p with
    | some m => shakmaty_position R (R.apply p m) rest
    | none => shakmaty_position R p rest

/-- `fromto_to_move` of game.rs: concatenate the squares, parse as UCI
(`Parse` on failure), resolve against the position (`ChessRules` on
failure). -/
def fromto_to_move (R : Rules Pos Move San Uci Fen) (f t : String)
    (pos : Pos) : Except Error Move :=
  match R.parse_uci (f ++ t) with
  | none => Except.error (Error.new ErrorType.Parse)
  | some u =>
    match R.uci_to_move u pos with
    | none => Except.error (Error.new ErrorType.ChessRules)
    | some m => Except.ok m

/-- `Game::find_or_create_branch`: traverse to the node for `line`, resolve
`from ++ to` against the replayed position, render its SAN, and reuse the
existing child with that SAN or push a fresh one. Returns the SAN together
with the (possibly updated) tree; every error happens before any mutation. -/
def Game.find_or_create_branch (R : Rules Pos Move San Uci Fen)
    (g : Game Pos San) (f t : String) (line : List San) :
    Except Error (San × GameTree San) :=
  match traverse_down g.game_tree line with
  | none => Except.error (Error.mk ErrorType.ChessRules none none)
  | some branch =>
    let pos := shakmaty_position R g.initial_position line
    match fromto_to_move R f t pos with
    | Except.error e => Except.error e
    | Except.ok mov =>
      let san := R.san_of pos mov
      match find_child san (GameTree.lines branch) with
      | some _ => Except.ok (san, g.game_tree)
      | none => Except.ok (san, tree_insert san g.game_tree line)

/-- `Game::play`: `find_or_create_branch` on the current line, then append
the SAN to `current_line`. On error the game is returned unchanged, which
is faithful to the source: both mutations (the tree push and the
`current_line` push) happen after the last fallible step. -/
def Game.play (R : Rules Pos Move San Uci Fen) (g : Game Pos San)
    (f t : String) : Game Pos San × Option Error :=
  match Game.find_or_create_branch R g f t g.current_line with
  | Except.error e => (g, some e)
  | Except.ok (san, tree) =>
    ({ g with current_line := g.current_line ++ [san], game_tree := tree }, none)

/-- `Game::navigate_back`: truncate `current_line` to
`len.saturating_sub(back)` (never fails). -/
def Game.navigate_back (g : Game Pos San) (back : Nat) : Game Pos San :=
  { g with current_line := g.current_line.take (g.current_line.length - back) }

/-- `Game::from_fen`: default game with `initial_position` parsed from the
FEN (`Parse` on a malformed FEN, `ChessRules` on an invalid position). -/
def Game.from_fen (R : Rules Pos Move San Uci Fen) (s : String) :
    Except Error (Game Pos San) :=
  match R.parse_fen s with
  | none => Except.error (Error.new ErrorType.Parse)
  | some fen =>
    match R.fen_position fen with
    | none => Except.error (Error.new ErrorType.ChessRules)
    | some p => Except.ok { Game.default_game R with initial_position := p }

/-- `Game::current_position`. -/
def Game.current_position (R : Rules Pos Move San Uci Fen)
    (g : Game Pos San) : Pos :=
  shakmaty_position R g.initial_position g.current_line

/-- `Game::current_fen`. -/
def Game.current_fen (R : Rules Pos Move San Uci Fen)
    (g : Game Pos San) : String :=
  R.fen_of (Game.current_position R g)

end GameOps

/-! ## game.rs: derived view (`GameRepr`) -/

/-- `struct GameRepr` of game.rs: the wire view of a game. It has five
serialized fields; `available_moves` is a `HashMap<String, Vec<String>>`,
modelled as an association list in first-insertion order. -/
structure GameRepr : Type where
  index : Nat
  available_moves : List (String × List String)
  fen : String
  is_takes : Bool
  is_check : Bool
deriving DecidableEq, Repr

section Repr

variable {Pos Move San Uci Fen : Type} [DecidableEq San]

/-- `insert_from_to` of game.rs: append `to` to the vector under `from`,
creating the entry when absent. -/
def insert_from_to (f t : String) :
    List (String × List String) → List (String × List String)
  | [] => [(f, [t])]
  | (k, v) :: rest =>
    if k = f then (k, v ++ [t]) :: rest else (k, v) :: insert_from_to f t rest

/-- `available_moves` of game.rs: group legal moves by source square, in
the order the rules library yields them. -/
def available_moves (R : Rules Pos Move San Uci Fen) (pos : Pos) :
    List (String × List String) :=
  (R.legals pos).foldl
    (fun map m => insert_from_to (R.move_from m) (R.move_to m) map) []

/-- `last_and_current_position` of game.rs: the last move of
`current_line` paired with the position just before it, and the current
position. -/
def last_and_current_position (R : Rules Pos Move San Uci Fen)
    (g : Game Pos San) : Option (San × Pos) × Pos :=
  match g.current_line.getLast? with
  | none => (none, g.initial_position)
  | some last =>
    let line := g.current_line.dropLast
    let last_pos := shakmaty_position R g.initial_position line
    (some (last, last_pos), shakmaty_position R last_pos [last])

/-- `is_takes` of game.rs: whether the last move was a capture (`false` on
an empty line). The source `unwrap`s the SAN resolution, which cannot fail
for a well-formed line; the unreachable branch is modelled as `false`. -/
def is_takes (R : Rules Pos Move San Uci Fen) :
    Option (San × Pos) → Bool
  | none => false
  | some (san, pos) =>
    match R.san_to_move san pos with
    | some m => R.is_capture m
    | none => false

/-- `Game::get_repr`: the derived view, a pure function of the game. -/
def Game.get_repr (R : Rules Pos Move San Uci Fen) (g : Game Pos San) :
    GameRepr :=
  let lc := last_and_current_position R g
  { index := g.index
    available_moves := available_moves R lc.2
    fen := R.fen_of lc.2
    is_takes := is_takes R lc.1
    is_check := R.is_check lc.2 }

end Repr

/-! ## Wire serialization of `GameRepr`

`GameRepr` derives serde's `Serialize`; the derived serializer emits one
JSON object field per struct field, in declaration order. -/

/-- A minimal JSON value type for stating wire-shape facts. -/
inductive Json : Type where
  | str (s : String)
  | num (n : Int)
  | bool (b : Bool)
  | null
  | arr (xs : List Json)
  | obj (fields : List (String × Json))

/-- The serde-derived serialization of `GameRepr`: one field per struct
field, in declaration order (`index`, `available_moves`, `fen`,
`is_takes`, `is_check`). -/
def serialize_game_repr (r : GameRepr) : List (String × Json) :=
  [("index", Json.num r.index),
   ("available_moves",
     Json.obj (r.available_moves.map
       (fun p => (p.1, Json.arr (p.2.map Json.str))))),
   ("fen", Json.str r.fen),
   ("is_takes", Json.bool r.is_takes),
   ("is_check", Json.bool r.is_check)]

/-! ## api.rs: request and response types -/

/-- `struct ChangedGame` of api.rs. -/
structure ChangedGame : Type where
  id : String
  game : GameRepr
deriving DecidableEq, Repr

/-- `struct Response` of api.rs. -/
structure Response : Type where
  error : Option ErrorRepr
  changed_games : List ChangedGame
deriving DecidableEq, Repr

/-- `enum Request` of api.rs (string-keyed revision). -/
inductive Request : Type where
  | play (id toSq fromSq : String)
  | navigate_back (id : String) (back : Nat)
  | get_all_games
  | new_game (id : String)

/-- `response_from_error` of api.rs: error populated, `changed_games` empty. -/
def response_from_error (e : Error) : Response :=
  { error := some (Error.to_repr e), changed_games := [] }

/-- `response_from_game` of api.rs: exactly one changed game. -/
def response_from_game (id : String) (repr : GameRepr) : Response :=
  { error := none, changed_games := [ChangedGame.mk id repr] }

/-- `response_from_games` of api.rs, specialised to the sequential model in
which the games iterator cannot yield a poisoned-lock error. -/
def response_from_games (games : List (String × GameRepr)) : Response :=
  { error := none, changed_games := games.map (fun p => ChangedGame.mk p.1 p.2) }

/-- `handle_fatal_error` of api.rs: recoverable errors become in-band error
responses; only fatal errors propagate. -/
def handle_fatal_error : Except Error Response → Except Error Response
  | Except.ok r => Except.ok r
  | Except.error e =>
    if Error.is_recoverable e then Except.ok (response_from_error e)
    else Except.error e

/-! ## state.rs: the multi-game container

The `RwLock`/`Mutex` discipline is erased (sequential embedding), so the
`PoisonedHandle` paths are unreachable. `InnerState` is the
`HashMap<String, Option<Mutex<Game>>>`, modelled as an association list;
a `none` cell is a tombstone. -/

section StateOps

variable {Pos Move San Uci Fen : Type} [DecidableEq San]

/-- `GameCell`: `none` is a tombstone left by `close_game`. -/
def GameCell (Pos San : Type) : Type := Option (Game Pos San)

/-- `InnerState`: the id-to-cell map. -/
def InnerState (Pos San : Type) : Type := List (String × GameCell Pos San)

/-- `HashMap::get`. -/
def map_get {α : Type} : List (String × α) → String → Option α
  | [], _ => none
  | (k, v) :: rest, id => if k = id then some v else map_get rest id

/-- `HashMap::insert`: replace the value under the key (returning the old
value) or append a fresh entry (returning `none`). -/
def map_insert {α : Type} : List (String × α) → String → α →
    List (String × α) × Option α
  | [], k, v => ([(k, v)], none)
  | (k', v') :: rest, k, v =>
    if k' = k then ((k, v) :: rest, some v')
    else
      let r := map_insert rest k v
      ((k', v') :: r.1, r.2)

/-- Write through a `get_mut` borrow: update the value under the key
(callers only use this after a successful lookup). -/
def map_set {α : Type} : List (String × α) → String → α → List (String × α)
  | [], _, _ => []
  | (k', v') :: rest, k, v =>
    if k' = k then (k, v) :: rest else (k', v') :: map_set rest k v

/-- `StateOperations::get_game`: unknown id is `BadHandle`, tombstone is
`StaleHandle` (the lock-poisoning path cannot arise sequentially). -/
def get_game (m : InnerState Pos San) (id : String) :
    Except Error (Game Pos San) :=
  match map_get m id with
  | none => Except.error (Error.with_id (Error.new ErrorType.BadHandle) id)
  | some none => Except.error (Error.with_id (Error.new ErrorType.StaleHandle) id)
  | some (some g) => Except.ok g

/-- `StateOperations::close_game`: replace a present cell by a tombstone;
unknown id is `BadHandle`, an existing tombstone is `StaleHandle`. -/
def close_game (m : InnerState Pos San) (id : String) :
    InnerState Pos San × Option Error :=
  match map_get m id with
  | none => (m, some (Error.with_id (Error.new ErrorType.BadHandle) id))
  | some none => (m, some (Error.with_id (Error.new ErrorType.StaleHandle) id))
  | some (some _) => (map_set m id none, none)

/-- `StateOperations::new_game_default`: unconditionally create or replace
the cell with a default game. -/
def new_game_default (R : Rules Pos Move San Uci Fen)
    (m : InnerState Pos San) (id : String) : InnerState Pos San × Option Error :=
  ((map_insert m id (some (Game.default_game R))).1, none)

/-- `StateOperations::new_game_fen`. Faithful to the source, including its
`insert(...).ok_or(BadHandle)`: `HashMap::insert` returns the previous
value, so a fresh id makes `ok_or` produce a `BadHandle` error even though
the game has already been inserted. -/
def new_game_fen (R : Rules Pos Move San Uci Fen)
    (m : InnerState Pos San) (id : String) (fen : String) :
    InnerState Pos San × Option Error :=
  match Game.from_fen R fen with
  | Except.error e => (m, some e)
  | Except.ok g =>
    let r := map_insert m id (some g)
    match r.2 with
    | none => (r.1, some (Error.with_id (Error.new ErrorType.BadHandle) id))
    | some _ => (r.1, none)

/-- `GamesIterator`: the present games in map iteration order, tombstones
skipped (the poisoned path cannot arise sequentially). -/
def present_games (m : InnerState Pos San) : List (String × Game Pos San) :=
  m.filterMap (fun p =>
    match p.2 with
    | some g => some (p.1, g)
    | none => none)

/-- `StateHandle::game_operation`: look the game up, run the closure on it,
write the (possibly mutated) game back, and answer with exactly that
game's derived view. A closure error propagates after the write-back. -/
def game_operation (R : Rules Pos Move San Uci Fen)
    (m : InnerState Pos San) (id : String)
    (f : Game Pos San → Game Pos San × Option Error) :
    InnerState Pos San × Except Error Response :=
  match get_game m id with
  | Except.error e => (m, Except.error e)
  | Except.ok g =>
    let r := f g
    let m' := map_set m id (some r.1)
    match r.2 with
    | some e => (m', Except.error e)
    | none => (m', Except.ok (response_from_game id (Game.get_repr R r.1)))

/-- `StateHandle::state_operation`: run the closure on the whole map, then
answer with the derived views of all present games. -/
def state_operation (R : Rules Pos Move San Uci Fen)
    (m : InnerState Pos San)
    (f : InnerState Pos San → InnerState Pos San × Option Error) :
    InnerState Pos San × Except Error Response :=
  let r := f m
  match r.2 with
  | some e => (r.1, Except.error e)
  | none =>
    (r.1, Except.ok (response_from_games
      ((present_games r.1).map (fun p => (p.1, Game.get_repr R p.2)))))

/-- `StateHandle::play`. -/
def state_play (R : Rules Pos Move San Uci Fen) (m : InnerState Pos San)
    (id f t : String) : InnerState Pos San × Except Error Response :=
  game_operation R m id (fun g => Game.play R g f t)

/-- `StateHandle::navigate_back`. -/
def state_navigate_back (R : Rules Pos Move San Uci Fen)
    (m : InnerState Pos San) (id : String) (back : Nat) :
    InnerState Pos San × Except Error Response :=
  game_operation R m id (fun g => (Game.navigate_back g back, none))

/-- `StateHandle::get_all_games`. -/
def state_get_all_games (R : Rules Pos Move San Uci Fen)
    (m : InnerState Pos San) : InnerState Pos San × Except Error Response :=
  state_operation R m (fun s => (s, none))

/-- `StateHandle::new_game_default`. -/
def state_new_game_default (R : Rules Pos Move San Uci Fen)
    (m : InnerState Pos San) (id : String) :
    InnerState Pos San × Except Error Response :=
  state_operation R m (fun s => new_game_default R s id)

/-! ## api.rs dispatch and stdio.rs handler loop -/

/-- `dispatch_request` of api.rs: route the tagged request to the matching
state operation and downgrade recoverable errors to in-band responses. -/
def dispatch_request (R : Rules Pos Move San Uci Fen)
    (m : InnerState Pos San) (req : Request) :
    InnerState Pos San × Except Error Response :=
  let result :=
    match req with
    | Request.play id toSq fromSq => state_play R m id fromSq toSq
    | Request.navigate_back id back => state_navigate_back R m id back
    | Request.get_all_games => state_get_all_games R m
    | Request.new_game id => state_new_game_default R m id
  (result.1, handle_fatal_error result.2)

/-- `dispatch` of stdio.rs: decode the line (`dec` models
`serde_json::from_str::<Request>`); a decode failure yields a
`Deserialize` error response. -/
def dispatch (R : Rules Pos Move San Uci Fen)
    (dec : String → Option Request) (m : InnerState Pos San) (line : String) :
    InnerState Pos San × Except Error Response :=
  match dec line with
  | none => (m, Except.ok (response_from_error (Error.new ErrorType.Deserialize)))
  | some req => dispatch_request R m req

/-- One iteration of the `handler` loop of stdio.rs. `input = none` models
`next_line()` returning `Ok(None)` at end-of-stream; the source's
`unwrap_or_default()` turns it into the empty line. `Sum.inl` is the loop
continuing with the response it emits; `Sum.inr` is the `?` operator
breaking out with a fatal error. The loop has no other exit. -/
def handler_step (R : Rules Pos Move San Uci Fen)
    (dec : String → Option Request) (m : InnerState Pos San)
    (input : Option String) :
    (InnerState Pos San × Response) ⊕ Error :=
  let line := match input with | none => "" | some s => s
  match dispatch R dec m line with
  | (m', Except.ok resp) => Sum.inl (m', resp)
  | (_, Except.error e) => Sum.inr e

end StateOps

/-! ## Specification predicates -/

section SpecPreds

variable {Pos Move San Uci Fen : Type} [DecidableEq San]

/-- A SAN line is legal from `p`: each SAN resolves on the position reached
by replaying its prefix. -/
def LineLegal (R : Rules Pos Move San Uci Fen) : Pos → List San → Prop
  | _, [] => True
  | p, s :: rest =>
    match R.san_to_move s p with
    | none => False
    | some m => LineLegal R (R.apply p m) rest

/-- Every node of the tree below position `p` carries a SAN (non-root nodes
always do) that is legal on the position reached by replaying its
ancestors, recursively. -/
inductive TreeLegal (R : Rules Pos Move San Uci Fen) : Pos → GameTree San → Prop
  | intro (p : Pos) (t : GameTree San)
      (hleg : ∀ c ∈ GameTree.lines t, ∃ s m, GameTree.san c = some s ∧
        R.san_to_move s p = some m)
      (hrec : ∀ c ∈ GameTree.lines t, ∀ s m, GameTree.san c = some s →
        R.san_to_move s p = some m → TreeLegal R (R.apply p m) c) :
      TreeLegal R p t

/-- Children of every node have pairwise distinct `san` values. -/
inductive TreeNodup {San : Type} : GameTree San → Prop
  | intro (t : GameTree San)
      (hd : ((GameTree.lines t).map GameTree.san).Nodup)
      (hc : ∀ c ∈ GameTree.lines t, TreeNodup c) :
      TreeNodup t

/-- Games reachable by the public surface: a default or `from_fen`-created
game followed by any sequence of successful `play` and `navigate_back`
operations. -/
inductive Reachable (R : Rules Pos Move San Uci Fen) : Game Pos San → Prop
  | default_game : Reachable R (Game.default_game R)
  | from_fen (s : String) (g : Game Pos San) :
      Game.from_fen R s = Except.ok g → Reachable R g
  | play (g g' : Game Pos San) (f t : String) :
      Reachable R g → Game.play R g f t = (g', none) → Reachable R g'
  | navigate_back (g : Game Pos San) (n : Nat) :
      Reachable R g → Reachable R (Game.navigate_back g n)

end SpecPreds

/-! ## A concrete lawful rules instance

A tiny chess-rules adapter over `Nat`-coded positions, moves and SANs,
used to instantiate hypotheses at concrete inputs. It accepts exactly the
UCI text "e2e4" (as move 0, legal everywhere) and the FEN "goodfen". -/

/-- Toy rules instance. -/
def TR : Rules Nat Nat Nat Nat Nat :=
  { start := 0
    parse_uci := fun s => if s = "e2e4" then some 0 else none
    uci_to_move := fun u _ => if u = 0 then some 0 else none
    san_of := fun _ m => m
    san_to_move := fun s _ => some s
    apply := fun p _ => p + 1
    legals := fun _ => [0]
    move_from := fun _ => "e2"
    move_to := fun _ => "e4"
    is_capture := fun _ => false
    is_check := fun _ => false
    fen_of := fun _ => "fen"
    parse_fen := fun s => if s = "goodfen" then some 0 else none
    fen_position := fun f => some f }

/-- The toy instance satisfies the round-trip contract. -/
theorem TR_lawful : Rules.Lawful TR :=
  ⟨fun _ _ _ _ => rfl⟩

/-! ## Lemmas about the tree helpers -/

section TreeLemmas

variable {Pos Move San Uci Fen : Type} [DecidableEq San]

theorem find_child_mem {s : San} {l : List (GameTree San)} {i : Nat}
    {c : GameTree San} (h : find_child s l = some (i, c)) :
    c ∈ l ∧ GameTree.san c = some s := by
  induction l generalizing i with
  | nil => simp [find_child] at h
  | cons x xs ih =>
    by_cases hx : GameTree.san x = some s
    · simp [find_child, hx] at h
      obtain ⟨hi, hc⟩ := h
      subst hc
      exact ⟨List.mem_cons_self x xs, hx⟩
    · simp only [find_child, hx, if_false, Option.map_eq_some'] at h
      obtain ⟨⟨j, c2⟩, hp, hpc⟩ := h
      simp only [Prod.mk.injEq] at hpc
      obtain ⟨hi, hc⟩ := hpc
      subst hc
      have hr := ih hp
      exact ⟨List.mem_cons_of_mem _ hr.1, hr.2⟩

theorem find_child_none {s : San} {l : List (GameTree San)}
    (h : find_child s l = none) :
    ∀ c ∈ l, ¬ GameTree.san c = some s := by
  induction l with
  | nil => intro c hc; simp at hc
  | cons x xs ih =>
    by_cases hx : GameTree.san x = some s
    · simp [find_child, hx] at h
    · simp only [find_child, hx, if_false, Option.map_eq_none'] at h
      intro c hc
      rcases List.mem_cons.mp hc with hcx | hcs
      · exact hcx ▸ hx
      · exact ih h c hcs

theorem find_child_set {s : San} {l : List (GameTree San)} {i : Nat}
    {c : GameTree San} (h : find_child s l = some (i, c))
    {c' : GameTree San} (h' : GameTree.san c' = some s) :
    find_child s (l.set i c') = some (i, c') := by
  induction l generalizing i with
  | nil => simp [find_child] at h
  | cons x xs ih =>
    by_cases hx : GameTree.san x = some s
    · simp [find_child, hx] at h
      obtain ⟨hi, hc⟩ := h
      subst hi
      simp [List.set, find_child, h']
    · simp only [find_child, hx, if_false, Option.map_eq_some'] at h
      obtain ⟨⟨j, c2⟩, hp, hpc⟩ := h
      simp only [Prod.mk.injEq] at hpc
      obtain ⟨hi, hc⟩ := hpc
      subst hi
      subst hc
      simp only [List.set, find_child, hx, if_false]
      rw [ih hp]
      rfl

theorem map_san_set {s : San} {l : List (GameTree San)} {i : Nat}
    {c : GameTree San} (h : find_child s l = some (i, c))
    {c' : GameTree San} (h' : GameTree.san c' = GameTree.san c) :
    (l.set i c').map GameTree.san = l.map GameTree.san := by
  induction l generalizing i with
  | nil => simp [find_child] at h
  | cons x xs ih =>
    by_cases hx : GameTree.san x = some s
    · simp [find_child, hx] at h
      obtain ⟨hi, hc⟩ := h
      subst hi
      subst hc
      simp [List.set, h']
    · simp only [find_child, hx, if_false, Option.map_eq_some'] at h
      obtain ⟨⟨j, c2⟩, hp, hpc⟩ := h
      simp only [Prod.mk.injEq] at hpc
      obtain ⟨hi, hc⟩ := hpc
      subst hi
      subst hc
      simp only [List.set, List.map_cons]
      rw [ih hp]

theorem tree_insert_san (s : San) (t : GameTree San) (line : List San) :
    GameTree.san (tree_insert s t line) = GameTree.san t := by
  cases t with
  | mk s0 lines a e =>
    cases line with
    | nil => rfl
    | cons st rest =>
      cases h : find_child st lines with
      | none => simp [tree_insert, h, GameTree.san]
      | some p =>
        cases p with
        | mk i c => simp [tree_insert, h, GameTree.san]

/-- Inserting below the node reached by `line` is visible from the root:
the traversal now reaches that node with the fresh child appended. -/
theorem traverse_down_tree_insert {t b : GameTree San} {line : List San}
    (h : traverse_down t line = some b) (s : San) :
    traverse_down (tree_insert s t line) line = some (push_child s b) := by
  induction line generalizing t b with
  | nil =>
    simp only [traverse_down, Option.some.injEq] at h
    subst h
    cases t with
    | mk s0 lines a e => rfl
  | cons st rest ih =>
    cases t with
    | mk s0 lines a e =>
      cases hfc : find_child st lines with
      | none => simp [traverse_down, GameTree.lines, hfc] at h
      | some p =>
        cases p with
        | mk i c =>
          simp only [traverse_down, GameTree.lines, hfc] at h
          have hcs : GameTree.san c = some st := (find_child_mem hfc).2
          have hins : GameTree.san (tree_insert s c rest) = some st := by
            rw [tree_insert_san]; exact hcs
          simp only [tree_insert, hfc, traverse_down, GameTree.lines]
          rw [find_child_set hfc hins]
          exact ih h

/-- If the sought SAN is absent, appending its fresh branch makes it found. -/
theorem find_child_append_new (s : San) {l : List (GameTree San)}
    (h : find_child s l = none) :
    ∃ p, find_child s (l ++ [new_branch s]) = some p := by
  induction l with
  | nil => exact ⟨(0, new_branch s), by simp [find_child, new_branch, GameTree.san]⟩
  | cons x xs ih =>
    by_cases hx : GameTree.san x = some s
    · simp [find_child, hx] at h
    · simp only [find_child, hx, if_false, Option.map_eq_none'] at h
      obtain ⟨p, hp⟩ := ih h
      exact ⟨(p.1 + 1, p.2), by simp [List.cons_append, find_child, hx, hp]⟩

end TreeLemmas

/-! ## Preservation lemmas -/

section Preservation

variable {Pos Move San Uci Fen : Type} [DecidableEq San]

theorem nodup_append_single {α : Type} {l : List α} {a : α}
    (ha : a ∉ l) (hl : l.Nodup) : (l ++ [a]).Nodup := by
  induction l with
  | nil => simp
  | cons x xs ih =>
    simp only [List.nodup_cons] at hl
    simp only [List.cons_append, List.nodup_cons, List.mem_append,
      List.mem_singleton]
    refine ⟨?_, ih (fun hx => ha (List.mem_cons_of_mem _ hx)) hl.2⟩
    rintro (hx | hx)
    · exact hl.1 hx
    · exact ha (hx ▸ List.mem_cons_self x xs)

theorem tree_nodup_root : TreeNodup (GameTree.root San) := by
  refine TreeNodup.intro _ ?_ ?_ <;> simp [GameTree.root, GameTree.lines]

theorem tree_insert_nodup {t b : GameTree San} {line : List San}
    (hn : TreeNodup t) (h : traverse_down t line = some b) {s : San}
    (habs : find_child s (GameTree.lines b) = none) :
    TreeNodup (tree_insert s t line) := by
  induction line generalizing t b with
  | nil =>
    simp only [traverse_down, Option.some.injEq] at h
    subst h
    cases t with
    | mk s0 lines a e =>
      cases hn with
      | intro _ hd hc =>
        have hnotin : some s ∉ lines.map GameTree.san := by
          intro hmem
          obtain ⟨c, hcl, hcs⟩ := List.mem_map.mp hmem
          exact find_child_none habs c hcl hcs
        refine TreeNodup.intro _ ?_ ?_
        · show ((lines ++ [new_branch s]).map GameTree.san).Nodup
          rw [List.map_append]
          exact nodup_append_single (by simpa [new_branch, GameTree.san] using hnotin) hd
        · intro c hcm
          rcases List.mem_append.mp hcm with hcl | hcr
          · exact hc c hcl
          · rw [List.mem_singleton.mp hcr]
            refine TreeNodup.intro _ ?_ ?_ <;> simp [new_branch, GameTree.lines]
  | cons st rest ih =>
    cases t with
    | mk s0 lines a e =>
      cases hfc : find_child st lines with
      | none => simp [traverse_down, GameTree.lines, hfc] at h
      | some p =>
        cases p with
        | mk i c =>
          simp only [traverse_down, GameTree.lines, hfc] at h
          cases hn with
          | intro _ hd hc =>
            have hcmem := find_child_mem hfc
            have hins : GameTree.san (tree_insert s c rest) = GameTree.san c :=
              tree_insert_san s c rest
            simp only [tree_insert, hfc]
            refine TreeNodup.intro _ ?_ ?_
            · show (((lines.set i (tree_insert s c rest))).map GameTree.san).Nodup
              rw [map_san_set hfc hins]
              exact hd
            · intro x hxm
              rcases List.mem_or_eq_of_mem_set hxm with hxl | hxe
              · exact hc x hxl
              · rw [hxe]
                exact ih (hc c hcmem.1) h habs

theorem tree_legal_root (R : Rules Pos Move San Uci Fen) (p : Pos) :
    TreeLegal R p (GameTree.root San) := by
  refine TreeLegal.intro _ _ ?_ ?_ <;> simp [GameTree.root, GameTree.lines]

theorem tree_insert_legal {R : Rules Pos Move San Uci Fen} {p : Pos}
    {t : GameTree San} {line : List San}
    (ht : TreeLegal R p t) (hl : LineLegal R p line) {s : San} {mnew : Move}
    (hs : R.san_to_move s (shakmaty_position R p line) = some mnew) :
    TreeLegal R p (tree_insert s t line) := by
  induction line generalizing p t with
  | nil =>
    have hp : R.san_to_move s p = some mnew := hs
    cases t with
    | mk s0 lines a e =>
      cases ht with
      | intro _ _ hleg hrec =>
        refine TreeLegal.intro _ _ ?_ ?_
        · intro c hcm
          rcases List.mem_append.mp hcm with hcl | hcr
          · exact hleg c hcl
          · rw [List.mem_singleton.mp hcr]
            exact ⟨s, mnew, rfl, hp⟩
        · intro c hcm s' m' hcs hsm
          rcases List.mem_append.mp hcm with hcl | hcr
          · exact hrec c hcl s' m' hcs hsm
          · rw [List.mem_singleton.mp hcr] at hcs ⊢
            have hss : s = s' := by
              simpa [new_branch, GameTree.san] using hcs
            subst hss
            have hmm : mnew = m' := by
              rw [hp] at hsm
              exact Option.some.inj hsm
            subst hmm
            refine TreeLegal.intro _ _ ?_ ?_ <;> simp [new_branch, GameTree.lines]
  | cons st rest ih =>
    have hm0 : ∃ m0, R.san_to_move st p = some m0 := by
      cases hm : R.san_to_move st p with
      | none => simp [LineLegal, hm] at hl
      | some m0 => exact ⟨m0, rfl⟩
    obtain ⟨m0, hm⟩ := hm0
    have hl' : LineLegal R (R.apply p m0) rest := by
      simpa [LineLegal, hm] using hl
    have hs' : R.san_to_move s (shakmaty_position R (R.apply p m0) rest) = some mnew := by
      simpa [shakmaty_position, hm] using hs
    cases t with
    | mk s0 lines a e =>
      cases hfc : find_child st lines with
      | none =>
        simpa only [tree_insert, hfc] using ht
      | some pr =>
        cases pr with
        | mk i c =>
          cases ht with
          | intro _ _ hleg hrec =>
            have hcmem := find_child_mem hfc
            have hcleg : TreeLegal R (R.apply p m0) c :=
              hrec c hcmem.1 st m0 hcmem.2 hm
            have hcins : TreeLegal R (R.apply p m0) (tree_insert s c rest) :=
              ih hcleg hl' hs'
            have hins_san : GameTree.san (tree_insert s c rest) = some st := by
              rw [tree_insert_san]; exact hcmem.2
            simp only [tree_insert, hfc]
            refine TreeLegal.intro _ _ ?_ ?_
            · intro x hxm
              rcases List.mem_or_eq_of_mem_set hxm with hxl | hxe
              · exact hleg x hxl
              · rw [hxe]
                exact ⟨st, m0, hins_san, hm⟩
            · intro x hxm s' m' hxs hsm
              rcases List.mem_or_eq_of_mem_set hxm with hxl | hxe
              · exact hrec x hxl s' m' hxs hsm
              · subst hxe
                have hss : st = s' := by
                  rw [hins_san] at hxs
                  exact Option.some.inj hxs
                subst hss
                have hmm : m0 = m' := by
                  rw [hm] at hsm
                  exact Option.some.inj hsm
                subst hmm
                exact hcins

theorem shakmaty_position_cons {R : Rules Pos Move San Uci Fen} {p : Pos}
    {s : San} {m : Move} (h : R.san_to_move s p = some m) (l : List San) :
    shakmaty_position R p (s :: l) = shakmaty_position R (R.apply p m) l := by
  simp [shakmaty_position, h]

theorem legal_append {R : Rules Pos Move San Uci Fen} {p : Pos} {l : List San}
    (hl : LineLegal R p l) {s : San} {m : Move}
    (hs : R.san_to_move s (shakmaty_position R p l) = some m) :
    LineLegal R p (l ++ [s]) := by
  induction l generalizing p with
  | nil =>
    have hp : R.san_to_move s p = some m := hs
    simp [LineLegal, hp]
  | cons st rest ih =>
    cases hm : R.san_to_move st p with
    | none => simp [LineLegal, hm] at hl
    | some m0 =>
      have hl' : LineLegal R (R.apply p m0) rest := by
        simpa [LineLegal, hm] using hl
      have hs' : R.san_to_move s (shakmaty_position R (R.apply p m0) rest) = some m := by
        simpa [shakmaty_position, hm] using hs
      simpa [LineLegal, hm] using ih hl' hs'

theorem legal_take {R : Rules Pos Move San Uci Fen} {p : Pos} {l : List San}
    (hl : LineLegal R p l) (k : Nat) : LineLegal R p (l.take k) := by
  induction l generalizing p k with
  | nil => simp [LineLegal]
  | cons st rest ih =>
    cases k with
    | zero => simp [LineLegal]
    | succ k =>
      cases hm : R.san_to_move st p with
      | none => simp [LineLegal, hm] at hl
      | some m0 =>
        have hl' : LineLegal R (R.apply p m0) rest := by
          simpa [LineLegal, hm] using hl
        simpa [LineLegal, hm] using ih hl' k

end Preservation

/-! ## Characterizing successful operations -/

section Characterize

variable {Pos Move San Uci Fen : Type} [DecidableEq San]

/-- What a successful `play` did: the traversal succeeded, the UCI text
parsed and resolved on the replayed position, the rendered SAN was appended
to `current_line`, and the tree either already had a matching child (and is
unchanged) or got a fresh child pushed at the traversed node. -/
theorem play_ok_spec {R : Rules Pos Move San Uci Fen} {g g' : Game Pos San}
    {f t : String} (h : Game.play R g f t = (g', none)) :
    ∃ b u mov,
      traverse_down g.game_tree g.current_line = some b ∧
      R.parse_uci (f ++ t) = some u ∧
      R.uci_to_move u (shakmaty_position R g.initial_position g.current_line)
        = some mov ∧
      g'.index = g.index ∧ g'.game_info = g.game_info ∧
      g'.initial_position = g.initial_position ∧
      g'.current_line = g.current_line ++
        [R.san_of (shakmaty_position R g.initial_position g.current_line) mov] ∧
      ((∃ ic, find_child
          (R.san_of (shakmaty_position R g.initial_position g.current_line) mov)
          (GameTree.lines b) = some ic ∧ g'.game_tree = g.game_tree) ∨
       (find_child
          (R.san_of (shakmaty_position R g.initial_position g.current_line) mov)
          (GameTree.lines b) = none ∧
        g'.game_tree = tree_insert
          (R.san_of (shakmaty_position R g.initial_position g.current_line) mov)
          g.game_tree g.current_line)) := by
  cases htrav : traverse_down g.game_tree g.current_line with
  | none =>
    simp [Game.play, Game.find_or_create_branch, htrav] at h
  | some b =>
    cases hu : R.parse_uci (f ++ t) with
    | none =>
      simp [Game.play, Game.find_or_create_branch, htrav, fromto_to_move, hu] at h
    | some u =>
      cases hmov : R.uci_to_move u
          (shakmaty_position R g.initial_position g.current_line) with
      | none =>
        simp [Game.play, Game.find_or_create_branch, htrav, fromto_to_move,
          hu, hmov] at h
      | some mov =>
        cases hfc : find_child
            (R.san_of (shakmaty_position R g.initial_position g.current_line) mov)
            (GameTree.lines b) with
        | some ic =>
          simp only [Game.play, Game.find_or_create_branch, htrav,
            fromto_to_move, hu, hmov, hfc] at h
          rw [Prod.mk.injEq] at h
          obtain ⟨hg', -⟩ := h
          subst hg'
          exact ⟨b, u, mov, rfl, rfl, hmov, rfl, rfl, rfl, rfl,
            Or.inl ⟨ic, hfc, rfl⟩⟩
        | none =>
          simp only [Game.play, Game.find_or_create_branch, htrav,
            fromto_to_move, hu, hmov, hfc] at h
          rw [Prod.mk.injEq] at h
          obtain ⟨hg', -⟩ := h
          subst hg'
          exact ⟨b, u, mov, rfl, rfl, hmov, rfl, rfl, rfl, rfl,
            Or.inr ⟨hfc, rfl⟩⟩

/-- The shape of a `from_fen`-created game. -/
theorem from_fen_ok_shape {R : Rules Pos Move San Uci Fen} {s : String}
    {g : Game Pos San} (h : Game.from_fen R s = Except.ok g) :
    g.index = 0 ∧ g.current_line = [] ∧ g.game_tree = GameTree.root San := by
  cases hp : R.parse_fen s with
  | none => simp [Game.from_fen, hp] at h
  | some fen =>
    cases hq : R.fen_position fen with
    | none => simp [Game.from_fen, hp, hq] at h
    | some p =>
      simp only [Game.from_fen, hp, hq, Except.ok.injEq] at h
      subst h
      exact ⟨rfl, rfl, rfl⟩

end Characterize

/-! ## Reachability invariants -/

section Invariants

variable {Pos Move San Uci Fen : Type} [DecidableEq San]

/-- Every reachable game has a legal `current_line` and a legal tree. -/
theorem reachable_invariant {R : Rules Pos Move San Uci Fen}
    (hL : R.Lawful) {g : Game Pos San} (hg : Reachable R g) :
    LineLegal R g.initial_position g.current_line ∧
    TreeLegal R g.initial_position g.game_tree := by
  induction hg with
  | default_game =>
    exact ⟨trivial, tree_legal_root R _⟩
  | from_fen s g hfen =>
    obtain ⟨-, hline, htree⟩ := from_fen_ok_shape hfen
    rw [hline, htree]
    exact ⟨trivial, tree_legal_root R _⟩
  | play g g' f t hreach hplay ih =>
    obtain ⟨b, u, mov, htrav, hu, hmov, hidx, hinfo, hinit, hline, htree⟩ :=
      play_ok_spec hplay
    have hsan : R.san_to_move
        (R.san_of (shakmaty_position R g.initial_position g.current_line) mov)
        (shakmaty_position R g.initial_position g.current_line) = some mov :=
      hL.roundtrip _ u mov hmov
    constructor
    · rw [hinit, hline]
      exact legal_append ih.1 hsan
    · rw [hinit]
      rcases htree with ⟨ic, hfc, heq⟩ | ⟨hfc, heq⟩
      · rw [heq]; exact ih.2
      · rw [heq]
        exact tree_insert_legal ih.2 ih.1 hsan
  | navigate_back g n hreach ih =>
    refine ⟨?_, ih.2⟩
    exact legal_take ih.1 _

/-- Every reachable game has pairwise distinct SANs among each node's
children. This needs no assumption on the rules library. -/
theorem reachable_nodup {R : Rules Pos Move San Uci Fen}
    {g : Game Pos San} (hg : Reachable R g) : TreeNodup g.game_tree := by
  induction hg with
  | default_game => exact tree_nodup_root
  | from_fen s g hfen =>
    obtain ⟨-, -, htree⟩ := from_fen_ok_shape hfen
    rw [htree]
    exact tree_nodup_root
  | play g g' f t hreach hplay ih =>
    obtain ⟨b, u, mov, htrav, hu, hmov, hidx, hinfo, hinit, hline, htree⟩ :=
      play_ok_spec hplay
    rcases htree with ⟨ic, hfc, heq⟩ | ⟨hfc, heq⟩
    · rw [heq]; exact ih
    · rw [heq]
      exact tree_insert_nodup ih htrav hfc
  | navigate_back g n hreach ih => exact ih

end Invariants

/-! ## Replaying the same move -/

section Replay

variable {Pos Move San Uci Fen : Type} [DecidableEq San]

theorem push_child_lines (s : San) (t : GameTree San) :
    GameTree.lines (push_child s t) = GameTree.lines t ++ [new_branch s] := by
  cases t with
  | mk s0 lines a e => rfl

theorem navigate_back_one {g : Game Pos San} {l : List San} {s : San}
    (h : g.current_line = l ++ [s]) :
    Game.navigate_back g 1 = { g with current_line := l } := by
  unfold Game.navigate_back
  have hl : g.current_line.take (g.current_line.length - 1) = l := by
    rw [h]
    simp only [List.length_append, List.length_singleton, Nat.add_sub_cancel]
    exact List.take_left l [s]
  rw [hl]

/-- Replaying the same `(from, to)` after a one-step `navigate_back`
succeeds and reproduces exactly the same game: the existing child is
reused and no duplicate is appended. -/
theorem play_then_replay {R : Rules Pos Move San Uci Fen}
    {g g1 : Game Pos San} {f t : String}
    (h1 : Game.play R g f t = (g1, none)) :
    Game.play R (Game.navigate_back g1 1) f t = (g1, none) := by
  obtain ⟨b, u, mov, htrav, hu, hmov, hidx, hinfo, hinit, hline, htree⟩ :=
    play_ok_spec h1
  have hnav : Game.navigate_back g1 1 = { g1 with current_line := g.current_line } :=
    navigate_back_one hline
  rcases htree with ⟨ic, hfc, heq⟩ | ⟨hfc, heq⟩
  · have htrav2 : traverse_down g1.game_tree g.current_line = some b := by
      rw [heq]; exact htrav
    rw [hnav]
    simp only [Game.play, Game.find_or_create_branch, fromto_to_move,
      hinit, htrav2, hu, hmov, hfc]
    rw [← hline, ← hinit]
  · obtain ⟨pr, hpr⟩ := find_child_append_new
      (R.san_of (shakmaty_position R g.initial_position g.current_line) mov) hfc
    have htrav2 : traverse_down g1.game_tree g.current_line =
        some (push_child
          (R.san_of (shakmaty_position R g.initial_position g.current_line) mov) b) := by
      rw [heq]
      exact traverse_down_tree_insert htrav _
    have hfc2 : find_child
        (R.san_of (shakmaty_position R g.initial_position g.current_line) mov)
        (GameTree.lines (push_child
          (R.san_of (shakmaty_position R g.initial_position g.current_line) mov) b))
        = some pr := by
      rw [push_child_lines]
      exact hpr
    rw [hnav]
    simp only [Game.play, Game.find_or_create_branch, fromto_to_move,
      hinit, htrav2, hu, hmov, hfc2]
    rw [← hline, ← hinit]

end Replay

/-! ## State-layer lemmas -/

section StateLemmas

variable {Pos Move San Uci Fen : Type} [DecidableEq San]

theorem map_get_map_set {α : Type} {m : List (String × α)} {k : String} {w : α}
    (h : map_get m k = some w) (v : α) :
    map_get (map_set m k v) k = some v := by
  induction m with
  | nil => simp [map_get] at h
  | cons p rest ih =>
    cases p with
    | mk k' v' =>
      by_cases hk : k' = k
      · subst hk
        simp [map_get, map_set]
      · simp only [map_get, map_set, hk, if_false] at h ⊢
        exact ih h

/-- A successful `close_game` found a present game and replaced its cell. -/
theorem close_game_ok {m m' : InnerState Pos San} {id : String}
    (h : close_game m id = (m', none)) :
    (∃ gm, map_get m id = some (some gm)) ∧ m' = map_set m id none := by
  cases hg : map_get m id with
  | none =>
    simp [close_game, hg] at h
  | some cell =>
    cases cell with
    | none => simp [close_game, hg] at h
    | some gm =>
      simp only [close_game, hg, Prod.mk.injEq] at h
      exact ⟨⟨gm, rfl⟩, h.1.symm⟩

end StateLemmas

/-! ## Claim theorems -/

/-- C1: every game reachable from a default or `from_fen`-created game by
successful public operations (`play`, `navigate_back`) stores only SANs —
in `current_line` and in `game_tree` — that are legal in the position
obtained by replaying their prefix of ancestors from `initial_position`;
no public operation can construct a game violating this. Holds for every
rules adapter satisfying the round-trip contract. -/
theorem spec_move_legality {Pos Move San Uci Fen : Type} [DecidableEq San]
    (R : Rules Pos Move San Uci Fen) (hL : R.Lawful)
    (g : Game Pos San) (hg : Reachable R g) :
    LineLegal R g.initial_position g.current_line ∧
    TreeLegal R g.initial_position g.game_tree :=
  reachable_invariant hL hg

/-- Witness for C1: the hypotheses are satisfiable — the toy rules are
lawful and the game obtained by one successful `play` from the default
game is reachable. -/
theorem spec_move_legality_witness :
    LineLegal TR (Game.play TR (Game.default_game TR) "e2" "e4").1.initial_position
      (Game.play TR (Game.default_game TR) "e2" "e4").1.current_line ∧
    TreeLegal TR (Game.play TR (Game.default_game TR) "e2" "e4").1.initial_position
      (Game.play TR (Game.default_game TR) "e2" "e4").1.game_tree :=
  spec_move_legality TR TR_lawful _
    (Reachable.play (Game.default_game TR) _ "e2" "e4" Reachable.default_game rfl)

/-- C2: in every reachable game the children of every tree node have
pairwise distinct SAN values; and playing the same `(from, to)` again from
the same node (after `navigate_back 1`) reuses the existing child, giving
back the very same game instead of appending a duplicate. -/
theorem spec_tree_dedup {Pos Move San Uci Fen : Type} [DecidableEq San]
    (R : Rules Pos Move San Uci Fen) (g : Game Pos San) (hg : Reachable R g)
    (f t : String) (g1 g2 : Game Pos San)
    (h1 : Game.play R g f t = (g1, none))
    (h2 : Game.play R (Game.navigate_back g1 1) f t = (g2, none)) :
    TreeNodup g.game_tree ∧ g2 = g1 := by
  refine ⟨reachable_nodup hg, ?_⟩
  have h3 := play_then_replay h1
  rw [h2] at h3
  exact congrArg Prod.fst h3

/-- Witness for C2: a concrete double play of the same squares on the toy
rules, from the default game. -/
theorem spec_tree_dedup_witness :
    TreeNodup (Game.default_game TR).game_tree ∧
    (Game.play TR
        (Game.navigate_back (Game.play TR (Game.default_game TR) "e2" "e4").1 1)
        "e2" "e4").1
      = (Game.play TR (Game.default_game TR) "e2" "e4").1 :=
  spec_tree_dedup TR (Game.default_game TR) Reachable.default_game
    "e2" "e4" _ _ rfl rfl

/-- C3: if `play` returns an error, the game is left completely unchanged
(`current_line`, `game_tree` and `initial_position` all keep their values:
the whole record is unchanged). -/
theorem spec_play_atomicity {Pos Move San Uci Fen : Type} [DecidableEq San]
    (R : Rules Pos Move San Uci Fen) (g : Game Pos San) (f t : String)
    (e : Error) (h : (Game.play R g f t).2 = some e) :
    (Game.play R g f t).1 = g := by
  cases hf : Game.find_or_create_branch R g f t g.current_line with
  | error e2 => simp [Game.play, hf]
  | ok pr =>
    cases pr with
    | mk san tree => simp [Game.play, hf] at h

/-- Witness for C3: a malformed square pair fails with `Parse` and leaves
the default game unchanged. -/
theorem spec_play_atomicity_witness :
    (Game.play TR (Game.default_game TR) "x" "y").2 =
      some (Error.new ErrorType.Parse) ∧
    (Game.play TR (Game.default_game TR) "x" "y").1 = Game.default_game TR :=
  ⟨rfl, spec_play_atomicity TR (Game.default_game TR) "x" "y"
    (Error.new ErrorType.Parse) rfl⟩

/-- C4: `navigate_back n` never fails, truncates `current_line` to its
first `len − n` elements (saturating), leaves `game_tree` and
`initial_position` untouched, is the identity for `n = 0`, and empties the
line for every `n ≥ len`. -/
theorem spec_navigate_back_saturating {Pos San : Type}
    (g : Game Pos San) (n : Nat) :
    (Game.navigate_back g n).current_line =
      g.current_line.take (g.current_line.length - n) ∧
    (Game.navigate_back g n).game_tree = g.game_tree ∧
    (Game.navigate_back g n).initial_position = g.initial_position ∧
    Game.navigate_back g 0 = g ∧
    (∀ k, (Game.navigate_back g (g.current_line.length + k)).current_line = []) := by
  refine ⟨rfl, rfl, rfl, ?_, ?_⟩
  · unfold Game.navigate_back
    rw [Nat.sub_zero, List.take_length]
  · intro k
    show g.current_line.take (g.current_line.length - (g.current_line.length + k)) = []
    have hz : g.current_line.length - (g.current_line.length + k) = 0 := by omega
    rw [hz, List.take_zero]

/-- C5: after a successful `play`, `navigate_back 1` restores the previous
current line (hence the previous current position), leaves the tree as
`play` left it, and that tree still holds the child `play` created or
reused at the old node. -/
theorem spec_navigate_inverse {Pos Move San Uci Fen : Type} [DecidableEq San]
    (R : Rules Pos Move San Uci Fen) (g g' : Game Pos San) (f t : String)
    (h : Game.play R g f t = (g', none)) :
    Game.current_position R (Game.navigate_back g' 1) =
      Game.current_position R g ∧
    (Game.navigate_back g' 1).current_line = g.current_line ∧
    (Game.navigate_back g' 1).game_tree = g'.game_tree ∧
    ∃ b san, g'.current_line = g.current_line ++ [san] ∧
      traverse_down g'.game_tree g.current_line = some b ∧
      ∃ c, c ∈ GameTree.lines b ∧ GameTree.san c = some san := by
  obtain ⟨b, u, mov, htrav, hu, hmov, hidx, hinfo, hinit, hline, htree⟩ :=
    play_ok_spec h
  have hnav := navigate_back_one hline
  refine ⟨?_, ?_, ?_, ?_⟩
  · rw [hnav]
    simp [Game.current_position, hinit]
  · rw [hnav]
  · rw [hnav]
  · rcases htree with ⟨⟨i, c⟩, hfc, heq⟩ | ⟨hfc, heq⟩
    · obtain ⟨hcm, hcs⟩ := find_child_mem hfc
      exact ⟨b, _, hline, by rw [heq]; exact htrav, c, hcm, hcs⟩
    · refine ⟨push_child
        (R.san_of (shakmaty_position R g.initial_position g.current_line) mov) b,
        _, hline, by rw [heq]; exact traverse_down_tree_insert htrav _, ?_⟩
      refine ⟨new_branch
        (R.san_of (shakmaty_position R g.initial_position g.current_line) mov),
        ?_, rfl⟩
      rw [push_child_lines]
      exact List.mem_append_right _ (List.mem_singleton.mpr rfl)

/-- Witness for C5: the successful toy play of `e2e4` from the default game. -/
theorem spec_navigate_inverse_witness :
    Game.current_position TR
        (Game.navigate_back (Game.play TR (Game.default_game TR) "e2" "e4").1 1) =
      Game.current_position TR (Game.default_game TR) ∧
    (Game.navigate_back (Game.play TR (Game.default_game TR) "e2" "e4").1 1).current_line
      = (Game.default_game TR).current_line ∧
    (Game.navigate_back (Game.play TR (Game.default_game TR) "e2" "e4").1 1).game_tree
      = (Game.play TR (Game.default_game TR) "e2" "e4").1.game_tree ∧
    ∃ b san,
      (Game.play TR (Game.default_game TR) "e2" "e4").1.current_line =
        (Game.default_game TR).current_line ++ [san] ∧
      traverse_down (Game.play TR (Game.default_game TR) "e2" "e4").1.game_tree
        (Game.default_game TR).current_line = some b ∧
      ∃ c, c ∈ GameTree.lines b ∧ GameTree.san c = some san :=
  spec_navigate_inverse TR (Game.default_game TR) _ "e2" "e4" rfl

/-- C6: handle semantics. On an id absent from the map every
handle-consuming operation (`get_game`, `play`, `navigate_back`,
`close_game`) yields `bad_handle`; after a successful `close_game` the
cell is a tombstone and every such operation on that id — including a
second `close_game` — yields `stale_handle`. -/
theorem spec_handle_semantics {Pos Move San Uci Fen : Type} [DecidableEq San]
    (R : Rules Pos Move San Uci Fen)
    (m m2 m2t : InnerState Pos San) (id id2 f t : String) (n : Nat)
    (habs : map_get m id = none)
    (hclose : close_game m2 id2 = (m2t, none)) :
    get_game m id =
      Except.error (Error.with_id (Error.new ErrorType.BadHandle) id) ∧
    (state_play R m id f t).2 =
      Except.error (Error.with_id (Error.new ErrorType.BadHandle) id) ∧
    (state_navigate_back R m id n).2 =
      Except.error (Error.with_id (Error.new ErrorType.BadHandle) id) ∧
    (close_game m id).2 =
      some (Error.with_id (Error.new ErrorType.BadHandle) id) ∧
    map_get m2t id2 = some none ∧
    get_game m2t id2 =
      Except.error (Error.with_id (Error.new ErrorType.StaleHandle) id2) ∧
    (state_play R m2t id2 f t).2 =
      Except.error (Error.with_id (Error.new ErrorType.StaleHandle) id2) ∧
    (state_navigate_back R m2t id2 n).2 =
      Except.error (Error.with_id (Error.new ErrorType.StaleHandle) id2) ∧
    close_game m2t id2 =
      (m2t, some (Error.with_id (Error.new ErrorType.StaleHandle) id2)) := by
  obtain ⟨⟨gm, hget⟩, hset⟩ := close_game_ok hclose
  have htomb : map_get m2t id2 = some none := by
    rw [hset]
    exact map_get_map_set hget none
  refine ⟨?_, ?_, ?_, ?_, htomb, ?_, ?_, ?_, ?_⟩
  · simp [get_game, habs]
  · simp [state_play, game_operation, get_game, habs]
  · simp [state_navigate_back, game_operation, get_game, habs]
  · simp [close_game, habs]
  · simp [get_game, htomb]
  · simp [state_play, game_operation, get_game, htomb]
  · simp [state_navigate_back, game_operation, get_game, htomb]
  · simp [close_game, htomb]

/-- Witness for C6: an empty map with the unknown id `x`, and a one-game
map whose game `g` is closed. -/
theorem spec_handle_semantics_witness :
    get_game ([] : InnerState Nat Nat) "x" =
      Except.error (Error.with_id (Error.new ErrorType.BadHandle) "x") ∧
    (state_play TR ([] : InnerState Nat Nat) "x" "e2" "e4").2 =
      Except.error (Error.with_id (Error.new ErrorType.BadHandle) "x") ∧
    (state_navigate_back TR ([] : InnerState Nat Nat) "x" 0).2 =
      Except.error (Error.with_id (Error.new ErrorType.BadHandle) "x") ∧
    (close_game ([] : InnerState Nat Nat) "x").2 =
      some (Error.with_id (Error.new ErrorType.BadHandle) "x") ∧
    map_get ([("g", none)] : InnerState Nat Nat) "g" = some none ∧
    get_game ([("g", none)] : InnerState Nat Nat) "g" =
      Except.error (Error.with_id (Error.new ErrorType.StaleHandle) "g") ∧
    (state_play TR ([("g", none)] : InnerState Nat Nat) "g" "e2" "e4").2 =
      Except.error (Error.with_id (Error.new ErrorType.StaleHandle) "g") ∧
    (state_navigate_back TR ([("g", none)] : InnerState Nat Nat) "g" 0).2 =
      Except.error (Error.with_id (Error.new ErrorType.StaleHandle) "g") ∧
    close_game ([("g", none)] : InnerState Nat Nat) "g" =
      (([("g", none)] : InnerState Nat Nat),
        some (Error.with_id (Error.new ErrorType.StaleHandle) "g")) :=
  spec_handle_semantics TR [] [("g", some (Game.default_game TR))] [("g", none)]
    "x" "g" "e2" "e4" 0 rfl rfl

/-- C7 (code bug): `new_game_fen` on a fresh id with a valid FEN does not
succeed: `HashMap::insert` returns the previous value, so the source's
`insert(...).ok_or(BadHandle)` reports `BadHandle` exactly when the id was
fresh — even though the game has already been inserted into the map. On an
already-present id it succeeds. -/
theorem spec_new_game_fen_fresh_id :
    (new_game_fen TR ([] : InnerState Nat Nat) "g" "goodfen").2 =
      some (Error.with_id (Error.new ErrorType.BadHandle) "g") ∧
    (map_get (new_game_fen TR ([] : InnerState Nat Nat) "g" "goodfen").1 "g").isSome
      = true ∧
    (new_game_fen TR [("g", some (Game.default_game TR))] "g" "goodfen").2 = none :=
  ⟨rfl, rfl, rfl⟩

/-- C8: response shape. A successful single-game operation answers with
`changed_games` holding exactly the affected game's id and view; a
successful state operation answers with one entry per present game
(tombstones skipped, in map iteration order); an error response carries an
empty `changed_games`. -/
theorem spec_response_shape {Pos Move San Uci Fen : Type} [DecidableEq San]
    (R : Rules Pos Move San Uci Fen)
    (m1 ma : InnerState Pos San) (id1 f t : String) (ra : Response)
    (h1 : state_play R m1 id1 f t = (ma, Except.ok ra))
    (m2 mb : InnerState Pos San) (id2 : String) (n : Nat) (rb : Response)
    (h2 : state_navigate_back R m2 id2 n = (mb, Except.ok rb))
    (m3 mc : InnerState Pos San) (id3 : String) (rc : Response)
    (h3 : state_new_game_default R m3 id3 = (mc, Except.ok rc))
    (m4 mdd : InnerState Pos San) (rd : Response)
    (h4 : state_get_all_games R m4 = (mdd, Except.ok rd))
    (e : Error) :
    (∃ rep, ra.changed_games = [ChangedGame.mk id1 rep]) ∧
    (∃ rep, rb.changed_games = [ChangedGame.mk id2 rep]) ∧
    rc.changed_games =
      (present_games mc).map (fun p => ChangedGame.mk p.1 (Game.get_repr R p.2)) ∧
    rd.changed_games =
      (present_games mdd).map (fun p => ChangedGame.mk p.1 (Game.get_repr R p.2)) ∧
    (response_from_error e).changed_games = [] := by
  refine ⟨?_, ?_, ?_, ?_, rfl⟩
  · cases hg : get_game m1 id1 with
    | error e1 => simp [state_play, game_operation, hg] at h1
    | ok g0 =>
      cases hr2 : (Game.play R g0 f t).2 with
      | some e1 => simp [state_play, game_operation, hg, hr2] at h1
      | none =>
        simp only [state_play, game_operation, hg, hr2, Prod.mk.injEq,
          Except.ok.injEq] at h1
        exact ⟨Game.get_repr R (Game.play R g0 f t).1,
          by rw [← h1.2]; rfl⟩
  · cases hg : get_game m2 id2 with
    | error e1 => simp [state_navigate_back, game_operation, hg] at h2
    | ok g0 =>
      simp only [state_navigate_back, game_operation, hg, Prod.mk.injEq,
        Except.ok.injEq] at h2
      exact ⟨Game.get_repr R (Game.navigate_back g0 n),
        by rw [← h2.2]; rfl⟩
  · simp only [state_new_game_default, state_operation, new_game_default,
      Prod.mk.injEq, Except.ok.injEq] at h3
    obtain ⟨hmc, hrc⟩ := h3
    subst hmc
    rw [← hrc]
    simp [response_from_games]
  · simp only [state_get_all_games, state_operation, Prod.mk.injEq,
      Except.ok.injEq] at h4
    obtain ⟨hmd, hrd⟩ := h4
    subst hmd
    rw [← hrd]
    simp [response_from_games]

/-- Witness for C8: all four operations succeed concretely on toy maps. -/
theorem spec_response_shape_witness :
    (∃ rep,
      (response_from_game "g"
        (Game.get_repr TR (Game.play TR (Game.default_game TR) "e2" "e4").1)).changed_games
        = [ChangedGame.mk "g" rep]) ∧
    (∃ rep,
      (response_from_game "g"
        (Game.get_repr TR (Game.navigate_back (Game.default_game TR) 0))).changed_games
        = [ChangedGame.mk "g" rep]) ∧
    (response_from_games
        ((present_games ([("h", some (Game.default_game TR))] : InnerState Nat Nat)).map
          (fun p => (p.1, Game.get_repr TR p.2)))).changed_games =
      (present_games ([("h", some (Game.default_game TR))] : InnerState Nat Nat)).map
        (fun p => ChangedGame.mk p.1 (Game.get_repr TR p.2)) ∧
    (response_from_games
        ((present_games ([("g", some (Game.default_game TR))] : InnerState Nat Nat)).map
          (fun p => (p.1, Game.get_repr TR p.2)))).changed_games =
      (present_games ([("g", some (Game.default_game TR))] : InnerState Nat Nat)).map
        (fun p => ChangedGame.mk p.1 (Game.get_repr TR p.2)) ∧
    (response_from_error (Error.new ErrorType.Parse)).changed_games = [] :=
  spec_response_shape TR
    [("g", some (Game.default_game TR))] _ "g" "e2" "e4" _ rfl
    [("g", some (Game.default_game TR))] _ "g" 0 _ rfl
    [] _ "h" _ rfl
    [("g", some (Game.default_game TR))] _ _ rfl
    (Error.new ErrorType.Parse)

/-- C9 (counterexample): the wire object serialized for a `GameRepr` does
not consist of exactly the four fields `available_moves`, `fen`,
`is_takes`, `is_check` — already for the default game's view. -/
theorem spec_game_repr_fields_counterexample :
    ¬ ((serialize_game_repr (Game.get_repr TR (Game.default_game TR))).map Prod.fst
      = ["available_moves", "fen", "is_takes", "is_check"]) := by
  decide

/-- C9 (amended): the serialized `GameRepr` object contains exactly five
fields — `index`, `available_moves`, `fen`, `is_takes` and `is_check` —
and no others. -/
theorem spec_game_repr_fields (r : GameRepr) :
    (serialize_game_repr r).map Prod.fst =
      ["index", "available_moves", "fen", "is_takes", "is_check"] :=
  rfl

/-- C10 (code bug): at end-of-stream the handler loop does not terminate:
`next_line()` yields no line, `unwrap_or_default()` turns that into the
empty line, which fails to decode, and the loop continues after emitting a
`Deserialize` error response — with the state unchanged, so every
subsequent iteration does the same forever. -/
theorem spec_handler_eof_continues {Pos Move San Uci Fen : Type}
    [DecidableEq San] (R : Rules Pos Move San Uci Fen)
    (dec : String → Option Request) (m : InnerState Pos San)
    (hdec : dec "" = none) :
    handler_step R dec m none =
      Sum.inl (m, response_from_error (Error.new ErrorType.Deserialize)) := by
  simp [handler_step, dispatch, hdec]

/-- Witness for C10: a concrete decoder that (like serde on the empty
line) rejects `""`. -/
theorem spec_handler_eof_continues_witness :
    handler_step TR (fun _ => none) ([] : InnerState Nat Nat) none =
      Sum.inl ([], response_from_error (Error.new ErrorType.Deserialize)) :=
  spec_handler_eof_continues TR (fun _ => none) [] rfl

end BigChess
